import Mathlib

/-!
Verification of the `Blockchain_Week_1_Task_1-2` repository.

The repository implements a proof-of-work blockchain in several Python
variants.  This file gives a shallow embedding of the core data model and
operations of those variants and proves/refutes the specification claims
about them.

Modelling conventions:
* `hashlib.sha256(...).hexdigest()` (and the other digest algorithms) are
  external library primitives, not code of this repository; they are
  modelled as abstract parameters `H : String → String` (respectively a
  record of such functions for the multi-algorithm variant).
* Python `float` timestamps are modelled as `Int`; no claim depends on the
  textual rendering of floats, only on ordering.
* Python strings/characters are Lean `String`/`Char`; the source orders and
  compares them by code point, which is modelled by an executable
  lexicographic comparison on the underlying character lists.
* `json.dumps(d, sort_keys=True)` is modelled by an executable serializer
  that sorts the association list of the dictionary by key before printing;
  the `\uXXXX` escaping of non-ASCII characters is elided (the digest
  function is abstract, so only injectivity-relevant structure matters).
* Unbounded `while` loops (mining, the Merkle layer loop) are modelled with
  explicit fuel; mining returns `none` when the fuel is exhausted.  For the
  Merkle loop the fuel `txs.length` is proven sufficient below.
-/

/-- A JSON value as used by the repository: block payloads and header fields
are strings or integers. -/
inductive JValue where
  | jstr (s : String)
  | jint (n : Int)
deriving DecidableEq, Inhabited

/-- Python `isinstance(x, str)` on a payload value. -/
def JValue.isStr : JValue → Bool
  | .jstr _ => true
  | .jint _ => false

/-- Escape of one character inside a JSON string literal (quote and
backslash; `\uXXXX` escapes for other characters are elided). -/
def escapeChar (c : Char) : String :=
  if c = '\\' then "\\\\" else if c = '"' then "\\\"" else String.singleton c

/-- Escape of a whole string for a JSON string literal. -/
def escapeString (s : String) : String :=
  s.data.foldl (fun acc c => acc ++ escapeChar c) ""

/-- Rendering of a JSON value, mirroring `json.dumps` output for the value
position. -/
def renderJValue : JValue → String
  | .jstr s => "\"" ++ escapeString s ++ "\""
  | .jint n => toString n

/-- Rendering of one `"key": value` entry of a JSON object with the default
`json.dumps` separators. -/
def renderPair (p : String × JValue) : String :=
  "\"" ++ escapeString p.1 ++ "\": " ++ renderJValue p.2

/-- Executable lexicographic comparison of character lists, the order in
which Python sorts strings (by code point). -/
def chLe : List Char → List Char → Bool
  | [], _ => true
  | _ :: _, [] => false
  | c :: cs, d :: ds => if c < d then true else if d < c then false else chLe cs ds

/-- Executable string comparison used for `sort_keys=True`. -/
def strLe (a b : String) : Bool := chLe a.data b.data

/-- Key order on dictionary entries: compare the keys. -/
def keyLe (a b : String × JValue) : Prop := strLe a.1 b.1 = true

instance : DecidableRel keyLe :=
  fun a b => inferInstanceAs (Decidable (strLe a.1 b.1 = true))

/-- Sorting of the entries of a dictionary by key, as `sort_keys=True`
does. -/
def sortKeys (l : List (String × JValue)) : List (String × JValue) :=
  List.insertionSort keyLe l

/-- Model of `json.dumps(d, sort_keys=True)` on an association list built in
the insertion order of the Python dictionary literal. -/
def jsonDumps (l : List (String × JValue)) : String :=
  "\x7b" ++ String.intercalate ", " ((sortKeys l).map renderPair) ++ "\x7d"

/-- Python `s.startswith(pre)`. -/
def starts_with (s pre : String) : Bool := pre.data.isPrefixOf s.data

/-- The difficulty target `"0" * d`. -/
def zeros (d : Nat) : String := ⟨List.replicate d '0'⟩

namespace Task1

/-!  Embedding of `src/Task_1.py`: scalar-payload blockchain, SHA-256 only,
hard-coded difficulty 4. -/

/-- A block of `Task_1.py` (`class Block`).  The payload `data` is a scalar
JSON value (the tampering demo also stores an `int` there). -/
structure Block where
  index : Nat
  timestamp : Int
  data : JValue
  previous_hash : String
  nonce : Nat
  hash : String
deriving DecidableEq, Inhabited

/-- The header dictionary of `Block.calculate_hash`, in the insertion order
of the Python source (`index`, `timestamp`, `data`, `previous_hash`,
`nonce`). -/
def header (b : Block) : List (String × JValue) :=
  [("index", .jint b.index), ("timestamp", .jint b.timestamp),
   ("data", b.data), ("previous_hash", .jstr b.previous_hash),
   ("nonce", .jint b.nonce)]

/-- `Block.calculate_hash`: SHA-256 (abstract `H`) of the canonical
(`sort_keys=True`) JSON encoding of the header. -/
def calculate_hash (H : String → String) (b : Block) : String :=
  H (jsonDumps (header b))

/-- `Block.__init__`: fields are stored, `nonce` starts at 0 and `hash` is
computed eagerly. -/
def Block.new (H : String → String) (index : Nat) (timestamp : Int)
    (data : JValue) (previous_hash : String) : Block :=
  let b : Block :=
    { index := index, timestamp := timestamp, data := data,
      previous_hash := previous_hash, nonce := 0, hash := "" }
  { b with hash := calculate_hash H b }

/-- `Blockchain.mine_block_internal` with fuel: while the recomputed digest
does not start with `"0" * d`, increment the nonce.  The caller's assignment
`block.hash = self.mine_block_internal(block)` of the returned digest is
fused into the result. -/
def mine_block_internal (H : String → String) (d : Nat) :
    Nat → Block → Option Block
  | fuel, b =>
    if starts_with (calculate_hash H b) (zeros d) then
      some { b with hash := calculate_hash H b }
    else
      match fuel with
      | 0 => none
      | fuel' + 1 => mine_block_internal H d fuel' { b with nonce := b.nonce + 1 }

/-- The chain of `Task_1.py` (`class Blockchain`): a block list and the PoW
difficulty (hard-coded to 4 by `__init__`). -/
structure Blockchain where
  chain : List Block
  difficulty : Nat
deriving DecidableEq, Inhabited

/-- `Blockchain.get_latest_block`: `self.chain[-1]`. -/
def get_latest_block (c : Blockchain) : Block := c.chain.getLast?.getD default

/-- `Blockchain.create_genesis_block`: build block 0 with sentinel previous
hash `"0"`, mine it, append it. -/
def create_genesis_block (H : String → String) (fuel : Nat) (t0 : Int)
    (c : Blockchain) : Option Blockchain :=
  let g := Block.new H 0 t0 (.jstr "Genesis Block") "0"
  (mine_block_internal H c.difficulty fuel g).map
    fun g' => { c with chain := c.chain ++ [g'] }

/-- `Blockchain.__init__`: empty chain, difficulty 4, then genesis
creation. -/
def init (H : String → String) (fuel : Nat) (t0 : Int) : Option Blockchain :=
  create_genesis_block H fuel t0 { chain := [], difficulty := 4 }

/-- `Blockchain.add_block`: rewrite `previous_hash` to the tip's hash, mine,
append. -/
def add_block (H : String → String) (fuel : Nat) (c : Blockchain)
    (nb : Block) : Option Blockchain :=
  let nb' := { nb with previous_hash := (get_latest_block c).hash }
  (mine_block_internal H c.difficulty fuel nb').map
    fun b => { c with chain := c.chain ++ [b] }

/-- `Blockchain.mine_block`: construct a fresh block after the tip and hand
it to `add_block`. -/
def mine_block (H : String → String) (fuel : Nat) (c : Blockchain)
    (t : Int) (d : JValue) : Option Blockchain :=
  let latest := get_latest_block c
  add_block H fuel c (Block.new H (latest.index + 1) t d latest.hash)

/-- A whole run of the `Task_1.py` driver: construct the chain, then append
one mined block per `(timestamp, data)` entry. -/
def build_chain (H : String → String) (fuel : Nat) (t0 : Int)
    (entries : List (Int × JValue)) : Option Blockchain :=
  entries.foldl (fun oc e => oc.bind fun c => mine_block H fuel c e.1 e.2)
    (init H fuel t0)

/-- The kinds of per-block check failures `is_chain_valid` can print. -/
inductive Kind where
  | indexDisc | linkBroken | hashMismatch | powFail | timeBack | typeBad
deriving DecidableEq

/-- One printed failure of `is_chain_valid`: the malformed-genesis message,
or a per-block message carrying the kind and the block's `index` field. -/
inductive CheckFailure where
  | genesisInvalid
  | block (k : Kind) (idx : Nat)
deriving DecidableEq

/-- The failure messages the body of the `for` loop of `is_chain_valid`
prints for one pair of adjacent blocks, in the order of the source's checks
2–7: index continuity, hash linkage, header-hash integrity, proof-of-work,
timestamp monotonicity, payload type. -/
def pairFailures (H : String → String) (d : Nat) (prev cur : Block) :
    List CheckFailure :=
  (if cur.index ≠ prev.index + 1 then [.block .indexDisc cur.index] else []) ++
  (if cur.previous_hash ≠ prev.hash then [.block .linkBroken cur.index] else []) ++
  (if cur.hash ≠ calculate_hash H cur then [.block .hashMismatch cur.index] else []) ++
  (if starts_with cur.hash (zeros d) = false then [.block .powFail cur.index] else []) ++
  (if cur.timestamp < prev.timestamp then [.block .timeBack cur.index] else []) ++
  (if cur.data.isStr = false then [.block .typeBad cur.index] else [])

/-- Check 1 of `is_chain_valid`: genesis well-formedness
(`self.chain[0]`). -/
def genesisFailures (H : String → String) (c : Blockchain) :
    List CheckFailure :=
  let g := c.chain.getD 0 default
  if g.index ≠ 0 ∨ g.previous_hash ≠ "0" ∨ g.hash ≠ calculate_hash H g then
    [.genesisInvalid]
  else []

/-- The `for i in range(1, len(self.chain))` loop of `is_chain_valid`, in
state-passing form: the accumulator carries the `is_valid` flag and the list
of printed failures, and every block access reads the threaded chain
state. -/
def validateLoop (H : String → String) :
    List Nat → (Bool × List CheckFailure) → Blockchain →
    (Bool × List CheckFailure) × Blockchain
  | [], acc, st => (acc, st)
  | i :: rest, acc, st =>
    let cur := st.chain.getD i default
    let prev := st.chain.getD (i - 1) default
    let fs := pairFailures H st.difficulty prev cur
    validateLoop H rest (acc.1 && fs.isEmpty, acc.2 ++ fs) st

/-- `Blockchain.is_chain_valid` in state-passing form: genesis check, then
the loop over positions `1, ..., len - 1`; the verdict is the `is_valid`
flag and the second component records the printed failures. -/
def is_chain_valid_st (H : String → String) (c : Blockchain) :
    (Bool × List CheckFailure) × Blockchain :=
  let gfs := genesisFailures H c
  validateLoop H (List.range' 1 (c.chain.length - 1)) (gfs.isEmpty, gfs) c

/-- `Blockchain.is_chain_valid`: verdict together with the printed failure
messages. -/
def is_chain_valid (H : String → String) (c : Blockchain) :
    Bool × List CheckFailure :=
  (is_chain_valid_st H c).1

/-- Declarative description of everything `is_chain_valid` reports: the
genesis-check failures followed by the check-order failures of every
adjacent pair, over the whole chain. -/
def allFailures (H : String → String) (c : Blockchain) : List CheckFailure :=
  genesisFailures H c ++
    (List.range' 1 (c.chain.length - 1)).flatMap
      (fun i => pairFailures H c.difficulty (c.chain.getD (i - 1) default)
        (c.chain.getD i default))

/-- Replacement of the payload of the block at one position, the
`test_chain.chain[k].data = ...` tamper mutation of the demo. -/
def updateData (d : JValue) : Nat → List Block → List Block
  | _, [] => []
  | 0, b :: bs => { b with data := d } :: bs
  | k + 1, b :: bs => b :: updateData d k bs

/-- The chain after the payload of block `k` is overwritten in place. -/
def set_data (c : Blockchain) (k : Nat) (d : JValue) : Blockchain :=
  { c with chain := updateData d k c.chain }

/-- Monotone-timestamp side condition for runs of the driver: the wall clock
read at each block creation never runs backwards. -/
def timesMono : Int → List Int → Bool
  | _, [] => true
  | t, t' :: rest => decide (t ≤ t') && timesMono t' rest

end Task1

namespace Rev2

/-!  Embedding of `src/Task_1_rev_2.py`: transaction-list payloads with a
binary Merkle tree, SHA-256 only, hard-coded difficulty 4. -/

/-- One bottom-up layer step of `calculate_merkle_root`: the
`for i in range(0, len(temp_tree), 2)` pass that hashes adjacent pairs and
duplicates a trailing odd node. -/
def pairUp (H : String → String) : List String → List String
  | [] => []
  | [x] => [H (x ++ x)]
  | x :: y :: rest => H (x ++ y) :: pairUp H rest

/-- The `while len(temp_tree) > 1` loop of `calculate_merkle_root`, with
fuel; `l.length` fuel is proven sufficient below
(`mergeLoop_length_le_one`). -/
def mergeLoop (H : String → String) : Nat → List String → List String
  | 0, l => l
  | fuel + 1, l => if 1 < l.length then mergeLoop H fuel (pairUp H l) else l

/-- `calculate_merkle_root`: digest of the empty byte string for an empty
batch, otherwise hash each (textual) transaction into the leaf layer and
fold layers bottom-up until a single root remains. -/
def calculate_merkle_root (H : String → String) (txs : List String) : String :=
  if txs.isEmpty then H ""
  else (mergeLoop H txs.length (txs.map H)).headD ""

/-- A block of `Task_1_rev_2.py`: the payload is a transaction list and the
header carries its Merkle root. -/
structure Block where
  index : Nat
  timestamp : Int
  data : List String
  previous_hash : String
  nonce : Nat
  merkle_root : String
  hash : String
deriving DecidableEq, Inhabited

/-- The block-header dictionary of `Block.calculate_hash`, in source
insertion order; the raw transactions do not appear, only `merkle_root`. -/
def header (b : Block) : List (String × JValue) :=
  [("index", .jint b.index), ("timestamp", .jint b.timestamp),
   ("merkle_root", .jstr b.merkle_root), ("previous_hash", .jstr b.previous_hash),
   ("nonce", .jint b.nonce)]

/-- `Block.calculate_hash` of the rev-2 variant. -/
def calculate_hash (H : String → String) (b : Block) : String :=
  H (jsonDumps (header b))

/-- `Block.__init__`: store the fields, compute `merkle_root` from the
transactions, then compute `hash` from the header. -/
def Block.new (H : String → String) (index : Nat) (timestamp : Int)
    (transactions : List String) (previous_hash : String) : Block :=
  let b : Block :=
    { index := index, timestamp := timestamp, data := transactions,
      previous_hash := previous_hash, nonce := 0, merkle_root := "",
      hash := "" }
  let b' := { b with merkle_root := calculate_merkle_root H transactions }
  { b' with hash := calculate_hash H b' }

/-- `Block.update_merkle_root`: recompute `merkle_root` from the current
transactions (used only by the tamper demos). -/
def update_merkle_root (H : String → String) (b : Block) : Block :=
  { b with merkle_root := calculate_merkle_root H b.data }

/-- `Blockchain.mine_block_internal` of the rev-2 variant (same loop as
`Task_1.py`), with fuel and the caller's digest assignment fused in. -/
def mine_block_internal (H : String → String) (d : Nat) :
    Nat → Block → Option Block
  | fuel, b =>
    if starts_with (calculate_hash H b) (zeros d) then
      some { b with hash := calculate_hash H b }
    else
      match fuel with
      | 0 => none
      | fuel' + 1 => mine_block_internal H d fuel' { b with nonce := b.nonce + 1 }

/-- The chain of `Task_1_rev_2.py`. -/
structure Blockchain where
  chain : List Block
  difficulty : Nat
deriving DecidableEq, Inhabited

/-- `Blockchain.get_latest_block`. -/
def get_latest_block (c : Blockchain) : Block := c.chain.getLast?.getD default

/-- `Blockchain.create_genesis_block`: block 0 carries the sample
transaction batch and is mined like every other block. -/
def create_genesis_block (H : String → String) (fuel : Nat) (t0 : Int)
    (c : Blockchain) : Option Blockchain :=
  let g := Block.new H 0 t0 ["Genesis Transaction"] "0"
  (mine_block_internal H c.difficulty fuel g).map
    fun g' => { c with chain := c.chain ++ [g'] }

/-- `Blockchain.__init__`: empty chain, difficulty 4, genesis creation. -/
def init (H : String → String) (fuel : Nat) (t0 : Int) : Option Blockchain :=
  create_genesis_block H fuel t0 { chain := [], difficulty := 4 }

/-- `Blockchain.add_block`. -/
def add_block (H : String → String) (fuel : Nat) (c : Blockchain)
    (nb : Block) : Option Blockchain :=
  let nb' := { nb with previous_hash := (get_latest_block c).hash }
  (mine_block_internal H c.difficulty fuel nb').map
    fun b => { c with chain := c.chain ++ [b] }

/-- `Blockchain.mine_block`: the public append taking a transaction
list. -/
def mine_block (H : String → String) (fuel : Nat) (c : Blockchain)
    (t : Int) (txs : List String) : Option Blockchain :=
  let latest := get_latest_block c
  add_block H fuel c (Block.new H (latest.index + 1) t txs latest.hash)

/-- A chain built by construction followed by one append per entry. -/
def build_chain (H : String → String) (fuel : Nat) (t0 : Int)
    (entries : List (Int × List String)) : Option Blockchain :=
  entries.foldl (fun oc e => oc.bind fun c => mine_block H fuel c e.1 e.2)
    (init H fuel t0)

/-- Kinds of per-block failures of the rev-2 `is_chain_valid`. -/
inductive Kind where
  | indexDisc | linkBroken | merkleMismatch | hashMismatch | powFail | timeBack
deriving DecidableEq

/-- The first failure the rev-2 `is_chain_valid` reports before returning
`False`: the genesis message, or a per-block message with the kind and the
block's `index` field. -/
inductive Failure where
  | genesisBad
  | block (k : Kind) (idx : Nat)
deriving DecidableEq

/-- The body of the rev-2 validation loop for one pair of adjacent blocks:
the checks in source order 1–6 (index, linkage, Merkle root, header hash,
proof-of-work, timestamp), stopping at the first failure. -/
def pairCheck (H : String → String) (d : Nat) (prev cur : Block) :
    Option Failure :=
  if cur.index ≠ prev.index + 1 then some (.block .indexDisc cur.index)
  else if cur.previous_hash ≠ prev.hash then some (.block .linkBroken cur.index)
  else if cur.merkle_root ≠ calculate_merkle_root H cur.data then
    some (.block .merkleMismatch cur.index)
  else if cur.hash ≠ calculate_hash H cur then
    some (.block .hashMismatch cur.index)
  else if starts_with cur.hash (zeros d) = false then
    some (.block .powFail cur.index)
  else if cur.timestamp < prev.timestamp then
    some (.block .timeBack cur.index)
  else none

/-- The rev-2 validation loop in state-passing form, returning at the first
failing block. -/
def checkLoop (H : String → String) :
    List Nat → Blockchain → Option Failure × Blockchain
  | [], st => (none, st)
  | i :: rest, st =>
    let cur := st.chain.getD i default
    let prev := st.chain.getD (i - 1) default
    match pairCheck H st.difficulty prev cur with
    | some f => (some f, st)
    | none => checkLoop H rest st

/-- The rev-2 `is_chain_valid` in state-passing form: genesis structure
check, then the loop from position 1 on. -/
def check_chain_st (H : String → String) (c : Blockchain) :
    Option Failure × Blockchain :=
  let g := c.chain.getD 0 default
  if g.index ≠ 0 ∨ g.previous_hash ≠ "0" then (some .genesisBad, c)
  else checkLoop H (List.range' 1 (c.chain.length - 1)) c

/-- The rev-2 `is_chain_valid` verdict. -/
def is_chain_valid (H : String → String) (c : Blockchain) : Bool :=
  (check_chain_st H c).1.isNone

/-- Replacement of the payload of the block at one position, the tamper
demos' `chain.chain[k].data = ...` mutation. -/
def updateData (d : List String) : Nat → List Block → List Block
  | _, [] => []
  | 0, b :: bs => { b with data := d } :: bs
  | k + 1, b :: bs => b :: updateData d k bs

/-- The chain after the payload of block `k` is overwritten in place. -/
def set_data (c : Blockchain) (k : Nat) (d : List String) : Blockchain :=
  { c with chain := updateData d k c.chain }

end Rev2

namespace BC

/-!  Embedding of `src/blockchain.py`: the multi-algorithm variant with the
interactive demo around it. -/

/-- The five digest primitives of `hashlib` that `Block.calculate_hash`
selects from; abstract parameters of the model. -/
structure HashPrims where
  sha256 : String → String
  sha512 : String → String
  sha3_256 : String → String
  sha3_512 : String → String
  blake2b : String → String

/-- A block of `blockchain.py`; it records its hash-algorithm selector. -/
structure Block where
  index : Nat
  timestamp : Int
  data : JValue
  previous_hash : String
  nonce : Nat
  hash_algorithm : String
  hash : String
deriving DecidableEq, Inhabited

/-- The header dictionary of `Block.calculate_hash`, in source insertion
order; the selector itself is not serialized. -/
def header (b : Block) : List (String × JValue) :=
  [("index", .jint b.index), ("timestamp", .jint b.timestamp),
   ("data", b.data), ("previous_hash", .jstr b.previous_hash),
   ("nonce", .jint b.nonce)]

/-- The `if/elif` chain of `Block.calculate_hash` that picks the digest
primitive from the selector string, with the final
`else: return hashlib.sha256(...)` fallback for unsupported selectors. -/
def dispatch (p : HashPrims) (alg : String) (s : String) : String :=
  if alg = "sha256" then p.sha256 s
  else if alg = "sha512" then p.sha512 s
  else if alg = "sha3-256" then p.sha3_256 s
  else if alg = "sha3-512" then p.sha3_512 s
  else if alg = "blake2b" then p.blake2b s
  else p.sha256 s

/-- `Block.calculate_hash` of `blockchain.py`. -/
def calculate_hash (p : HashPrims) (b : Block) : String :=
  dispatch p b.hash_algorithm (jsonDumps (header b))

/-- `Block.__init__` with its `nonce=0` and algorithm arguments; `hash` is
computed eagerly. -/
def Block.new (p : HashPrims) (index : Nat) (timestamp : Int) (data : JValue)
    (previous_hash : String) (nonce : Nat) (alg : String) : Block :=
  let b : Block :=
    { index := index, timestamp := timestamp, data := data,
      previous_hash := previous_hash, nonce := nonce, hash_algorithm := alg,
      hash := "" }
  { b with hash := calculate_hash p b }

/-- The chain of `blockchain.py`: difficulty and selector are stored exactly
as passed, with no validation (`difficulty` may be any integer). -/
structure Blockchain where
  chain : List Block
  difficulty : Int
  hash_algorithm : String
deriving DecidableEq, Inhabited

/-- Python `"0" * d` for the stored (possibly non-positive) difficulty: the
empty string when `d ≤ 0`. -/
def zerosI (d : Int) : String := zeros d.toNat

/-- `Blockchain.get_latest_block`. -/
def get_latest_block (c : Blockchain) : Block := c.chain.getLast?.getD default

/-- `Blockchain.create_genesis_block`: the genesis block is constructed and
appended as-is — it is never mined. -/
def create_genesis_block (p : HashPrims) (t0 : Int) (c : Blockchain) :
    Blockchain :=
  let g := Block.new p 0 t0
    (.jstr "Genesis Block - The beginning of the blockchain") "0" 0
    c.hash_algorithm
  { c with chain := c.chain ++ [g] }

/-- `Blockchain.__init__(difficulty, hash_algorithm)`: store the
configuration unvalidated and create the genesis block.  Construction is
total — no configuration is rejected. -/
def init (p : HashPrims) (difficulty : Int) (alg : String) (t0 : Int) :
    Blockchain :=
  create_genesis_block p t0
    { chain := [], difficulty := difficulty, hash_algorithm := alg }

/-- `Blockchain.mine_block` with fuel: while the stored hash does not start
with the target, increment the nonce and recompute the stored hash. -/
def mine_block (p : HashPrims) (d : Int) : Nat → Block → Option Block
  | fuel, b =>
    if starts_with b.hash (zerosI d) then some b
    else
      match fuel with
      | 0 => none
      | fuel' + 1 =>
        let b' := { b with nonce := b.nonce + 1 }
        mine_block p d fuel' { b' with hash := calculate_hash p b' }

/-- `Blockchain.add_block(data)`: build the candidate at index
`len(self.chain)` on top of the tip, mine it, append it. -/
def add_block (p : HashPrims) (fuel : Nat) (c : Blockchain) (t : Int)
    (data : JValue) : Option Blockchain :=
  let prev := get_latest_block c
  let nb := Block.new p c.chain.length t data prev.hash 0 c.hash_algorithm
  (mine_block p c.difficulty fuel nb).map
    fun b => { c with chain := c.chain ++ [b] }

/-- A chain built by `Blockchain(difficulty, alg)` followed by one
`add_block` per entry. -/
def build_chain (p : HashPrims) (fuel : Nat) (difficulty : Int) (alg : String)
    (t0 : Int) (entries : List (Int × JValue)) : Option Blockchain :=
  entries.foldl (fun oc e => oc.bind fun c => add_block p fuel c e.1 e.2)
    (some (init p difficulty alg t0))

/-- Kinds of failures of `blockchain.py`'s `is_chain_valid`: it performs
only these three checks. -/
inductive Kind where
  | hashMismatch | linkBroken | powFail
deriving DecidableEq

/-- The loop body of `blockchain.py`'s `is_chain_valid` for position `i`:
recomputed-hash integrity, then linkage, then proof-of-work, returning
`False` at the first failure; the printed report carries the loop position
`i`. -/
def pairCheck (p : HashPrims) (d : Int) (i : Nat) (prev cur : Block) :
    Option (Nat × Kind) :=
  if cur.hash ≠ calculate_hash p cur then some (i, .hashMismatch)
  else if cur.previous_hash ≠ prev.hash then some (i, .linkBroken)
  else if starts_with cur.hash (zerosI d) = false then some (i, .powFail)
  else none

/-- The validation loop of `blockchain.py` in state-passing form. -/
def checkLoop (p : HashPrims) :
    List Nat → Blockchain → Option (Nat × Kind) × Blockchain
  | [], st => (none, st)
  | i :: rest, st =>
    let cur := st.chain.getD i default
    let prev := st.chain.getD (i - 1) default
    match pairCheck p st.difficulty i prev cur with
    | some f => (some f, st)
    | none => checkLoop p rest st

/-- `blockchain.py`'s `is_chain_valid` in state-passing form: the loop from
position 1 on; the genesis block is never checked. -/
def check_chain_st (p : HashPrims) (c : Blockchain) :
    Option (Nat × Kind) × Blockchain :=
  checkLoop p (List.range' 1 (c.chain.length - 1)) c

/-- `blockchain.py`'s `is_chain_valid` verdict. -/
def is_chain_valid (p : HashPrims) (c : Blockchain) : Bool :=
  (check_chain_st p c).1.isNone

/-- Declarative description of `blockchain.py`'s validation outcome: the
first position (from 1 on) whose three-check battery fails, with its
kind. -/
def firstFailure (p : HashPrims) (c : Blockchain) : Option (Nat × Kind) :=
  (List.range' 1 (c.chain.length - 1)).findSome?
    (fun i => pairCheck p c.difficulty i (c.chain.getD (i - 1) default)
      (c.chain.getD i default))

end BC

/-!  Concrete instances used by counterexamples and witnesses.  `exH` tags
its input with a difficulty-4 target prefix, so that every digest trivially
satisfies the hard-coded difficulty of the `Task_1*` variants, mining finds
every nonce immediately, and the function is injective (distinct headers
get distinct digests). -/

/-- Concrete injective stand-in digest whose outputs always meet the
difficulty-4 target. -/
def exH : String → String := fun s => "0000" ++ s

/-- Concrete digest primitives with distinct tags per algorithm, to make the
selector dispatch observable. -/
def exPrims : BC.HashPrims :=
  { sha256 := fun s => "A" ++ s
    sha512 := fun s => "B" ++ s
    sha3_256 := fun s => "C" ++ s
    sha3_512 := fun s => "D" ++ s
    blake2b := fun s => "E" ++ s }

/-- A freshly built three-block `Task_1.py` chain under `exH`. -/
def t1chain : Task1.Blockchain :=
  (Task1.build_chain exH 0 0 [(0, .jstr "tx1"), (0, .jstr "tx2")]).getD default

/-- `t1chain` with the payloads of blocks 1 and 2 overwritten by integers
without re-sealing. -/
def t1tampered : Task1.Blockchain :=
  Task1.set_data (Task1.set_data t1chain 1 (.jint 111)) 2 (.jint 222)

/-- A freshly built three-block `Task_1_rev_2.py` chain under `exH`; block 1
carries the odd transaction batch of the Merkle duplication test. -/
def r2chain : Rev2.Blockchain :=
  (Rev2.build_chain exH 0 0 [(0, ["a", "b", "c"]), (0, ["d"])]).getD default

/-- `r2chain` with the last transaction of block 1's odd batch duplicated in
place, a payload mutation that preserves the Merkle root. -/
def r2dup : Rev2.Blockchain := Rev2.set_data r2chain 1 ["a", "b", "c", "c"]

/-- A concrete mined `Task_1.py` block for the mining witness. -/
def t1block : Task1.Block := Task1.Block.new exH 0 0 (.jstr "g") "0"

/-- A freshly constructed `Task_1.py` chain under `exH` (genesis only). -/
def t1genesis : Task1.Blockchain := (Task1.init exH 0 0).getD default

/-- A concrete `blockchain.py` block carrying an unsupported hash-algorithm
selector. -/
def bcblock : BC.Block := BC.Block.new exPrims 1 0 (.jstr "x") "p" 0 "md5"

/-- Concrete digest primitives whose outputs all carry one leading zero, so
difficulty-1 mining of the multi-algorithm variant succeeds at once. -/
def zeroPrims : BC.HashPrims :=
  { sha256 := fun s => "0" ++ s
    sha512 := fun s => "00" ++ s
    sha3_256 := fun s => "0c" ++ s
    sha3_512 := fun s => "0d" ++ s
    blake2b := fun s => "0e" ++ s }

/-- A concrete sealed `blockchain.py` block under `zeroPrims`. -/
def bcblock0 : BC.Block := BC.Block.new zeroPrims 1 0 (.jstr "x") "p" 0 "sha256"

/-- A concrete two-block `blockchain.py` chain built at difficulty 1 under
`zeroPrims`. -/
def bcchain : BC.Blockchain :=
  (BC.build_chain zeroPrims 0 1 "sha256" 0 [(0, .jstr "a")]).getD default

/-!  General list helper lemmas. -/

set_option maxRecDepth 40000

theorem getD_append_lt {α : Type} :
    ∀ (l l' : List α) (i : Nat) (x : α), i < l.length →
      (l ++ l').getD i x = l.getD i x
  | [], _, _, _, h => by simp at h
  | _ :: _, _, 0, _, _ => rfl
  | _ :: as, l', i + 1, x, h => by
    simp only [List.cons_append, List.getD_cons_succ]
    exact getD_append_lt as l' i x (by simpa using h)

theorem getD_append_len {α : Type} :
    ∀ (l : List α) (b : α) (l' : List α) (x : α),
      (l ++ b :: l').getD l.length x = b
  | [], _, _, _ => rfl
  | _ :: as, b, l', x => by
    simp only [List.cons_append, List.length_cons, List.getD_cons_succ]
    exact getD_append_len as b l' x

theorem flatMap_congr_mem {α β : Type} :
    ∀ (l : List α) (f g : α → List β), (∀ x ∈ l, f x = g x) →
      l.flatMap f = l.flatMap g
  | [], _, _, _ => rfl
  | a :: as, f, g, h => by
    simp only [List.flatMap_cons]
    rw [h a (by simp), flatMap_congr_mem as f g (fun x hx => h x (by simp [hx]))]

theorem getD_last {α : Type} (l : List α) (hne : l ≠ []) (x : α) :
    l.getD (l.length - 1) x = l.getLast hne := by
  have hp : 0 < l.length := List.length_pos.mpr hne
  rw [List.getD_eq_getElem l x (by omega), List.getLast_eq_getElem]

theorem getLast?_getD {α : Type} [Inhabited α] (l : List α) (hne : l ≠ []) :
    l.getLast?.getD default = l.getLast hne := by
  rw [List.getLast?_eq_getLast l hne]; rfl

/-!  Faithfulness of the fueled Merkle layer loop: `txs.length` fuel always
suffices to reach a single root, and the loop never loses the last node. -/

theorem pairUp_length (H : String → String) :
    ∀ l, (Rev2.pairUp H l).length = (l.length + 1) / 2
  | [] => rfl
  | [_] => by simp [Rev2.pairUp]
  | _ :: _ :: rest => by
    simp only [Rev2.pairUp, List.length_cons, pairUp_length H rest]
    omega

theorem mergeLoop_length_le_one (H : String → String) :
    ∀ (fuel : Nat) (l : List String), l.length ≤ fuel + 1 →
      (Rev2.mergeLoop H fuel l).length ≤ 1
  | 0, l, h => by simpa [Rev2.mergeLoop] using h
  | fuel + 1, l, h => by
    rw [Rev2.mergeLoop]
    split
    · exact mergeLoop_length_le_one H fuel _ (by rw [pairUp_length]; omega)
    · omega

theorem mergeLoop_length_pos (H : String → String) :
    ∀ (fuel : Nat) (l : List String), 0 < l.length →
      0 < (Rev2.mergeLoop H fuel l).length
  | 0, l, h => by simpa [Rev2.mergeLoop] using h
  | fuel + 1, l, h => by
    rw [Rev2.mergeLoop]
    split
    · exact mergeLoop_length_pos H fuel _ (by rw [pairUp_length]; omega)
    · exact h

/-- C5: for the transaction list `["a","b","c"]`, the Merkle root equals
`hash(hash(hash("a")||hash("b")) || hash(hash("c")||hash("c")))`: the last
node of the odd layer is duplicated and paired with itself, not dropped. -/
theorem c5_merkle_odd_duplication (H : String → String) :
    Rev2.calculate_merkle_root H ["a", "b", "c"] =
      H (H (H "a" ++ H "b") ++ H (H "c" ++ H "c")) := rfl

/-- C6: the Merkle root of the empty transaction list is the digest of the
empty byte string. -/
theorem c6_merkle_empty (H : String → String) :
    Rev2.calculate_merkle_root H [] = H "" := rfl

/-!  Frame lemmas: the three validation loops thread the chain state through
unchanged. -/

theorem t1_validateLoop_state (H : String → String) :
    ∀ (is : List Nat) (acc : Bool × List Task1.CheckFailure)
      (st : Task1.Blockchain), (Task1.validateLoop H is acc st).2 = st
  | [], _, _ => rfl
  | _ :: rest, _, st => t1_validateLoop_state H rest _ st

theorem r2_checkLoop_state (H : String → String) :
    ∀ (is : List Nat) (st : Rev2.Blockchain),
      (Rev2.checkLoop H is st).2 = st
  | [], _ => rfl
  | i :: rest, st => by
    simp only [Rev2.checkLoop]
    cases hc : Rev2.pairCheck H st.difficulty (st.chain.getD (i - 1) default)
        (st.chain.getD i default) with
    | some f => rfl
    | none => exact r2_checkLoop_state H rest st

theorem bc_checkLoop_state (p : BC.HashPrims) :
    ∀ (is : List Nat) (st : BC.Blockchain),
      (BC.checkLoop p is st).2 = st
  | [], _ => rfl
  | i :: rest, st => by
    simp only [BC.checkLoop]
    cases hc : BC.pairCheck p st.difficulty i (st.chain.getD (i - 1) default)
        (st.chain.getD i default) with
    | some f => rfl
    | none => exact bc_checkLoop_state p rest st

/-- C10: verification is read-only.  In each of the three variants the
state-passing transcription of `is_chain_valid` returns the chain it was
given completely unchanged, whatever the verdict. -/
theorem c10_verify_readonly :
    (∀ (H : String → String) (c : Task1.Blockchain),
        (Task1.is_chain_valid_st H c).2 = c) ∧
    (∀ (H : String → String) (c : Rev2.Blockchain),
        (Rev2.check_chain_st H c).2 = c) ∧
    (∀ (p : BC.HashPrims) (c : BC.Blockchain),
        (BC.check_chain_st p c).2 = c) := by
  refine ⟨fun H c => ?_, fun H c => ?_, fun p c => ?_⟩
  · exact t1_validateLoop_state H _ _ c
  · simp only [Rev2.check_chain_st]
    split
    · rfl
    · exact r2_checkLoop_state H _ c
  · exact bc_checkLoop_state p _ c

/-!  Mining lemmas: a successful run of the proof-of-work loop returns a
block whose stored digest is the recomputed digest and meets the target, and
it touches nothing but `nonce` and `hash`. -/

theorem t1_mine_some (H : String → String) (d : Nat) :
    ∀ (fuel : Nat) (b b' : Task1.Block),
      Task1.mine_block_internal H d fuel b = some b' →
      b'.hash = Task1.calculate_hash H b' ∧ starts_with b'.hash (zeros d) = true
  | 0, b, b', h => by
    rw [Task1.mine_block_internal] at h
    split at h
    next hc => obtain rfl := Option.some.inj h; exact ⟨rfl, hc⟩
    next hc => exact Option.noConfusion h
  | fuel + 1, b, b', h => by
    rw [Task1.mine_block_internal] at h
    split at h
    next hc => obtain rfl := Option.some.inj h; exact ⟨rfl, hc⟩
    next hc => exact t1_mine_some H d fuel _ b' h

theorem t1_mine_fields (H : String → String) (d : Nat) :
    ∀ (fuel : Nat) (b b' : Task1.Block),
      Task1.mine_block_internal H d fuel b = some b' →
      b'.index = b.index ∧ b'.timestamp = b.timestamp ∧ b'.data = b.data ∧
        b'.previous_hash = b.previous_hash
  | 0, b, b', h => by
    rw [Task1.mine_block_internal] at h
    split at h
    next hc => obtain rfl := Option.some.inj h; exact ⟨rfl, rfl, rfl, rfl⟩
    next hc => exact Option.noConfusion h
  | fuel + 1, b, b', h => by
    rw [Task1.mine_block_internal] at h
    split at h
    next hc => obtain rfl := Option.some.inj h; exact ⟨rfl, rfl, rfl, rfl⟩
    next hc => exact t1_mine_fields H d fuel { b with nonce := b.nonce + 1 } b' h

theorem bc_mine_some (p : BC.HashPrims) (d : Int) :
    ∀ (fuel : Nat) (b b' : BC.Block), b.hash = BC.calculate_hash p b →
      BC.mine_block p d fuel b = some b' →
      b'.hash = BC.calculate_hash p b' ∧
        starts_with b'.hash (BC.zerosI d) = true
  | 0, b, b', hinv, h => by
    rw [BC.mine_block] at h
    split at h
    next hc => obtain rfl := Option.some.inj h; exact ⟨hinv, hc⟩
    next hc => exact Option.noConfusion h
  | fuel + 1, b, b', hinv, h => by
    rw [BC.mine_block] at h
    split at h
    next hc => obtain rfl := Option.some.inj h; exact ⟨hinv, hc⟩
    next hc => exact bc_mine_some p d fuel _ b' rfl h

theorem bc_fold_none (p : BC.HashPrims) (fuel : Nat) :
    ∀ (entries : List (Int × JValue)),
      entries.foldl (fun oc e => oc.bind fun c => BC.add_block p fuel c e.1 e.2)
        (none : Option BC.Blockchain) = none
  | [] => rfl
  | _ :: rest => bc_fold_none p fuel rest

theorem bc_add_block_pow (p : BC.HashPrims) (fuel : Nat) (c : BC.Blockchain)
    (t : Int) (data : JValue) (c' : BC.Blockchain)
    (h : BC.add_block p fuel c t data = some c')
    (hp : ∀ i, 1 ≤ i → i < c.chain.length →
      starts_with (c.chain.getD i default).hash (BC.zerosI c.difficulty) = true) :
    c'.difficulty = c.difficulty ∧
      ∀ i, 1 ≤ i → i < c'.chain.length →
        starts_with (c'.chain.getD i default).hash (BC.zerosI c.difficulty) = true := by
  simp only [BC.add_block] at h
  cases hm : BC.mine_block p c.difficulty fuel
      (BC.Block.new p c.chain.length t data (BC.get_latest_block c).hash 0
        c.hash_algorithm) with
  | none => rw [hm] at h; exact Option.noConfusion h
  | some b =>
    rw [hm] at h
    obtain rfl := Option.some.inj h
    refine ⟨rfl, fun i h1 h2 => ?_⟩
    simp only [List.length_append, List.length_cons, List.length_nil] at h2
    by_cases hi : i < c.chain.length
    · rw [getD_append_lt _ _ _ _ hi]; exact hp i h1 hi
    · have hie : i = c.chain.length := by omega
      subst hie
      rw [getD_append_len]
      exact (bc_mine_some p c.difficulty fuel _ b rfl hm).2

theorem bc_fold_pow (p : BC.HashPrims) (fuel : Nat) :
    ∀ (entries : List (Int × JValue)) (c0 c : BC.Blockchain),
      entries.foldl (fun oc e => oc.bind fun cc => BC.add_block p fuel cc e.1 e.2)
        (some c0) = some c →
      (∀ i, 1 ≤ i → i < c0.chain.length →
        starts_with (c0.chain.getD i default).hash (BC.zerosI c0.difficulty) = true) →
      c.difficulty = c0.difficulty ∧
        ∀ i, 1 ≤ i → i < c.chain.length →
          starts_with (c.chain.getD i default).hash (BC.zerosI c0.difficulty) = true
  | [], c0, c, h, hp => by obtain rfl := Option.some.inj h; exact ⟨rfl, hp⟩
  | e :: rest, c0, c, h, hp => by
    replace h : rest.foldl
        (fun oc e => oc.bind fun cc => BC.add_block p fuel cc e.1 e.2)
        (BC.add_block p fuel c0 e.1 e.2) = some c := h
    cases ha : BC.add_block p fuel c0 e.1 e.2 with
    | none =>
      rw [ha, bc_fold_none p fuel rest] at h
      exact Option.noConfusion h
    | some c1 =>
      rw [ha] at h
      obtain ⟨hd, hp1⟩ := bc_add_block_pow p fuel c0 e.1 e.2 c1 ha hp
      obtain ⟨hd', hp'⟩ := bc_fold_pow p fuel rest c1 c h (by rw [hd]; exact hp1)
      exact ⟨by rw [hd', hd], by rw [← hd]; exact hp'⟩

/-- C2: a successful run of the proof-of-work search returns a block whose
stored hash meets the difficulty target and equals the digest recomputed
from the final header fields — for `Task_1.py` unconditionally (its loop
recomputes the digest), for `blockchain.py` under the constructor invariant
`hash == calculate_hash()` that every block handed to `mine_block` has;
consequently every appended block of a chain built by `add_block` satisfies
the difficulty predicate. -/
theorem c2_mining_pow :
    (∀ (H : String → String) (d fuel : Nat) (b b' : Task1.Block), 0 < d →
        Task1.mine_block_internal H d fuel b = some b' →
        starts_with b'.hash (zeros d) = true ∧
          b'.hash = Task1.calculate_hash H b') ∧
    (∀ (p : BC.HashPrims) (d : Int) (fuel : Nat) (b b' : BC.Block), 0 < d →
        b.hash = BC.calculate_hash p b →
        BC.mine_block p d fuel b = some b' →
        starts_with b'.hash (BC.zerosI d) = true ∧
          b'.hash = BC.calculate_hash p b') ∧
    (∀ (p : BC.HashPrims) (fuel : Nat) (d : Int) (alg : String) (t0 : Int)
        (entries : List (Int × JValue)) (c : BC.Blockchain),
        BC.build_chain p fuel d alg t0 entries = some c →
        ∀ i, 1 ≤ i → i < c.chain.length →
          starts_with (c.chain.getD i default).hash (BC.zerosI d) = true) := by
  refine ⟨fun H d fuel b b' _ h => ?_, fun p d fuel b b' _ hinv h => ?_,
    fun p fuel d alg t0 entries c h => ?_⟩
  · exact ⟨(t1_mine_some H d fuel b b' h).2, (t1_mine_some H d fuel b b' h).1⟩
  · exact ⟨(bc_mine_some p d fuel b b' hinv h).2, (bc_mine_some p d fuel b b' hinv h).1⟩
  · exact (bc_fold_pow p fuel entries (BC.init p d alg t0) c h
      (fun i h1 h2 => by simp [BC.init, BC.create_genesis_block] at h2; omega)).2

/-!  Characterization of the `Task_1.py` verifier: it accumulates every
failure of every block (it does not stop at the first failing block), and of
the `blockchain.py` verifier: it returns the first failure of its three-check
battery. -/

theorem isEmpty_append {α : Type} (l l' : List α) :
    (l ++ l').isEmpty = (l.isEmpty && l'.isEmpty) := by
  cases l <;> simp

theorem t1_validateLoop_spec (H : String → String) (st : Task1.Blockchain) :
    ∀ (is : List Nat) (b : Bool) (log : List Task1.CheckFailure),
      (Task1.validateLoop H is (b, log) st).1 =
        (b && (is.flatMap (fun i => Task1.pairFailures H st.difficulty
            (st.chain.getD (i - 1) default) (st.chain.getD i default))).isEmpty,
         log ++ is.flatMap (fun i => Task1.pairFailures H st.difficulty
            (st.chain.getD (i - 1) default) (st.chain.getD i default)))
  | [], b, log => by simp [Task1.validateLoop]
  | i :: rest, b, log => by
    simp only [Task1.validateLoop, List.flatMap_cons]
    rw [t1_validateLoop_spec H st rest _ _]
    simp [isEmpty_append, Bool.and_assoc, List.append_assoc]

theorem t1_valid_eq (H : String → String) (c : Task1.Blockchain) :
    Task1.is_chain_valid H c =
      ((Task1.allFailures H c).isEmpty, Task1.allFailures H c) := by
  simp only [Task1.is_chain_valid, Task1.is_chain_valid_st, Task1.allFailures]
  rw [t1_validateLoop_spec, isEmpty_append]

theorem bc_checkLoop_findSome (p : BC.HashPrims) (st : BC.Blockchain) :
    ∀ (is : List Nat),
      (BC.checkLoop p is st).1 = is.findSome? (fun i =>
        BC.pairCheck p st.difficulty i (st.chain.getD (i - 1) default)
          (st.chain.getD i default))
  | [] => rfl
  | i :: rest => by
    simp only [BC.checkLoop, List.findSome?_cons]
    cases hc : BC.pairCheck p st.difficulty i (st.chain.getD (i - 1) default)
        (st.chain.getD i default) with
    | some f => rfl
    | none => exact bc_checkLoop_findSome p st rest

/-- C1 (amended): `Task_1.py`'s verifier checks, per block from position 1
on, exactly index continuity, linkage, header integrity, proof-of-work,
timestamp monotonicity and payload type in that order (genesis is checked
separately first; there is no Merkle step in this scalar-payload variant),
but it does NOT stop at the first failing block: it reports the kind and
block index of every failing check over the whole chain and returns invalid
iff that report is nonempty.  `blockchain.py`'s verifier performs only
header integrity, linkage and proof-of-work, in that order, and does stop
at the first failing block. -/
theorem c1_verify_order_and_report :
    (∀ (H : String → String) (c : Task1.Blockchain),
        Task1.is_chain_valid H c =
          ((Task1.allFailures H c).isEmpty, Task1.allFailures H c)) ∧
    (∀ (p : BC.HashPrims) (c : BC.Blockchain),
        (BC.check_chain_st p c).1 = BC.firstFailure p c) :=
  ⟨fun H c => t1_valid_eq H c,
   fun p c => bc_checkLoop_findSome p c (List.range' 1 (c.chain.length - 1))⟩

/-- C1 counterexample: on a concrete chain whose blocks 1 and 2 were both
tampered with, `Task_1.py`'s verifier does not stop at the first failing
block — it reports two failure kinds for block 1 and then two more for
block 2. -/
theorem c1_counterexample :
    Task1.is_chain_valid exH t1tampered =
      (false, [.block .hashMismatch 1, .block .typeBad 1,
               .block .hashMismatch 2, .block .typeBad 2]) := by decide

/-- C3 counterexample: the genesis block of a freshly constructed
`blockchain.py` chain (difficulty 4) does not satisfy the difficulty
predicate — `create_genesis_block` appends it without ever mining it. -/
theorem c3_counterexample :
    starts_with ((BC.init exPrims 4 "sha256" 0).chain.getD 0 default).hash
      (BC.zerosI (BC.init exPrims 4 "sha256" 0).difficulty) = false := by decide

/-- C3 (amended): in `Task_1.py` the genesis block is mined at construction
under the chain's difficulty 4, so whenever construction succeeds the
one-block chain holds a genesis with index 0, sentinel previous hash,
self-consistent digest and a digest meeting the difficulty target; in
`blockchain.py`, by contrast, the genesis block is appended exactly as the
constructor built it (nonce 0, no mining), so its digest is not constrained
by the difficulty predicate. -/
theorem c3_genesis_mining :
    (∀ (H : String → String) (fuel : Nat) (t0 : Int) (c : Task1.Blockchain),
        Task1.init H fuel t0 = some c →
        ∃ g, c.chain = [g] ∧ c.difficulty = 4 ∧ g.index = 0 ∧
          g.previous_hash = "0" ∧ g.hash = Task1.calculate_hash H g ∧
          starts_with g.hash (zeros 4) = true) ∧
    (∀ (p : BC.HashPrims) (d : Int) (alg : String) (t0 : Int),
        (BC.init p d alg t0).chain =
          [BC.Block.new p 0 t0
            (.jstr "Genesis Block - The beginning of the blockchain") "0" 0
            alg]) := by
  constructor
  · intro H fuel t0 c h
    simp only [Task1.init, Task1.create_genesis_block] at h
    cases hm : Task1.mine_block_internal H 4 fuel
        (Task1.Block.new H 0 t0 (.jstr "Genesis Block") "0") with
    | none => rw [hm] at h; exact Option.noConfusion h
    | some g =>
      rw [hm] at h
      obtain rfl := Option.some.inj h
      exact ⟨g, rfl, rfl, (t1_mine_fields H 4 fuel _ g hm).1,
        (t1_mine_fields H 4 fuel _ g hm).2.2.2,
        (t1_mine_some H 4 fuel _ g hm).1, (t1_mine_some H 4 fuel _ g hm).2⟩
  · intro p d alg t0; rfl

/-- C3 witness: the first half of `c3_genesis_mining` applied to the
concrete construction run under `exH`. -/
theorem c3_witness :
    ∃ g, t1genesis.chain = [g] ∧ t1genesis.difficulty = 4 ∧ g.index = 0 ∧
      g.previous_hash = "0" ∧ g.hash = Task1.calculate_hash exH g ∧
      starts_with g.hash (zeros 4) = true :=
  c3_genesis_mining.1 exH 0 0 t1genesis (by decide)

/-- C8 counterexample: `Blockchain(-1, "md5")` is accepted — the call
succeeds, stores the non-positive difficulty and the unknown selector
verbatim, and the genesis digest is silently computed with the SHA-256
fallback branch of `calculate_hash`. -/
theorem c8_counterexample :
    (BC.init exPrims (-1) "md5" 0).chain.length = 1 ∧
    (BC.init exPrims (-1) "md5" 0).difficulty = -1 ∧
    (BC.init exPrims (-1) "md5" 0).hash_algorithm = "md5" ∧
    ((BC.init exPrims (-1) "md5" 0).chain.getD 0 default).hash =
      exPrims.sha256 (jsonDumps (BC.header
        ((BC.init exPrims (-1) "md5" 0).chain.getD 0 default))) := by
  exact ⟨rfl, rfl, rfl, by decide⟩

/-- C8 (amended): `blockchain.py` chain construction performs no validation
at all — any difficulty (including values ≤ 0) and any hash-algorithm
selector are accepted and stored verbatim, construction always yields a
one-block chain, and an unsupported selector is silently substituted by the
SHA-256 branch inside `calculate_hash`. -/
theorem c8_construction_unvalidated :
    (∀ (p : BC.HashPrims) (d : Int) (alg : String) (t0 : Int),
        (BC.init p d alg t0).difficulty = d ∧
        (BC.init p d alg t0).hash_algorithm = alg ∧
        (BC.init p d alg t0).chain.length = 1) ∧
    (∀ (p : BC.HashPrims) (b : BC.Block),
        b.hash_algorithm ≠ "sha256" → b.hash_algorithm ≠ "sha512" →
        b.hash_algorithm ≠ "sha3-256" → b.hash_algorithm ≠ "sha3-512" →
        b.hash_algorithm ≠ "blake2b" →
        BC.calculate_hash p b = p.sha256 (jsonDumps (BC.header b))) := by
  refine ⟨fun p d alg t0 => ⟨rfl, rfl, rfl⟩, fun p b h1 h2 h3 h4 h5 => ?_⟩
  simp [BC.calculate_hash, BC.dispatch, h1, h2, h3, h4, h5]

/-- C8 witness: the fallback conjunct of `c8_construction_unvalidated`
applied to a concrete block with selector `"md5"`. -/
theorem c8_witness :
    BC.calculate_hash exPrims bcblock =
      exPrims.sha256 (jsonDumps (BC.header bcblock)) :=
  c8_construction_unvalidated.2 exPrims bcblock (by decide) (by decide)
    (by decide) (by decide) (by decide)

/-!  Order-theoretic properties of the key comparison, leading to the
canonical-encoding property: `json.dumps(..., sort_keys=True)` is invariant
under the insertion order of the dictionary entries. -/

theorem chLe_total : ∀ (x y : List Char), chLe x y = true ∨ chLe y x = true
  | [], _ => Or.inl rfl
  | _ :: _, [] => Or.inr rfl
  | c :: cs, d :: ds => by
    by_cases h1 : c < d
    · left; simp [chLe, h1]
    · by_cases h2 : d < c
      · right; simp [chLe, h2, h1]
      · rcases chLe_total cs ds with h | h
        · left; simp [chLe, h1, h2, h]
        · right; simp [chLe, h1, h2, h]

theorem chLe_antisymm : ∀ (x y : List Char),
    chLe x y = true → chLe y x = true → x = y
  | [], [], _, _ => rfl
  | [], _ :: _, _, h2 => by simp [chLe] at h2
  | _ :: _, [], h1, _ => by simp [chLe] at h1
  | c :: cs, d :: ds, h1, h2 => by
    by_cases hcd : c < d
    · have hdc : ¬ d < c := lt_asymm hcd
      simp [chLe, hdc, hcd] at h2
    · by_cases hdc : d < c
      · simp [chLe, hcd, hdc] at h1
      · have hce : c = d := le_antisymm (not_lt.mp hdc) (not_lt.mp hcd)
        subst hce
        simp only [chLe, lt_irrefl, if_false] at h1 h2
        rw [chLe_antisymm cs ds h1 h2]

theorem chLe_trans : ∀ (x y z : List Char),
    chLe x y = true → chLe y z = true → chLe x z = true
  | [], _, _, _, _ => rfl
  | _ :: _, [], _, h1, _ => by simp [chLe] at h1
  | _ :: _, _ :: _, [], _, h2 => by simp [chLe] at h2
  | c :: cs, d :: ds, e :: es, h1, h2 => by
    by_cases hcd : c < d
    · by_cases hde : d < e
      · simp [chLe, lt_trans hcd hde]
      · by_cases hed : e < d
        · simp [chLe, hde, hed] at h2
        · have : d = e := le_antisymm (not_lt.mp hed) (not_lt.mp hde)
          subst this
          simp [chLe, hcd]
    · by_cases hdc : d < c
      · simp [chLe, hcd, hdc] at h1
      · have : c = d := le_antisymm (not_lt.mp hdc) (not_lt.mp hcd)
        subst this
        simp only [chLe, lt_irrefl, if_false] at h1 h2 ⊢
        by_cases hce : c < e
        · simp [hce]
        · by_cases hec : e < c
          · simp [hce, hec] at h2
          · simp only [hce, hec, if_false] at h2 ⊢
            exact chLe_trans cs ds es h1 h2

theorem strLe_antisymm {a b : String} (h1 : strLe a b = true)
    (h2 : strLe b a = true) : a = b := by
  cases a; cases b
  exact congrArg String.mk (chLe_antisymm _ _ h1 h2)

theorem keyLe_total_inst : IsTotal (String × JValue) keyLe :=
  ⟨fun a b => chLe_total a.1.data b.1.data⟩

theorem keyLe_trans_inst : IsTrans (String × JValue) keyLe :=
  ⟨fun a b c h1 h2 => chLe_trans a.1.data b.1.data c.1.data h1 h2⟩

theorem sortKeys_eq_of_perm (l1 l2 : List (String × JValue))
    (hp : l1.Perm l2) (hnd : (l1.map Prod.fst).Nodup) :
    sortKeys l1 = sortKeys l2 := by
  haveI := keyLe_total_inst
  haveI := keyLe_trans_inst
  have hs1 : List.Sorted keyLe (sortKeys l1) := List.sorted_insertionSort keyLe l1
  have hs2 : List.Sorted keyLe (sortKeys l2) := List.sorted_insertionSort keyLe l2
  have hp1 : (sortKeys l1).Perm l1 := List.perm_insertionSort keyLe l1
  have hp2 : (sortKeys l2).Perm l2 := List.perm_insertionSort keyLe l2
  have hps : (sortKeys l1).Perm (sortKeys l2) := hp1.trans (hp.trans hp2.symm)
  have hsym : Symmetric (fun a b : String × JValue => a.1 ≠ b.1) :=
    fun a b h e => h e.symm
  have hnd1 : List.Pairwise (fun a b : String × JValue => a.1 ≠ b.1) l1 :=
    List.pairwise_map.mp hnd
  have hne1 : List.Pairwise (fun a b : String × JValue => a.1 ≠ b.1) (sortKeys l1) :=
    (List.Perm.pairwise_iff (fun {a b} h => hsym h) hp1).mpr hnd1
  have hne2 : List.Pairwise (fun a b : String × JValue => a.1 ≠ b.1) (sortKeys l2) :=
    (List.Perm.pairwise_iff (fun {a b} h => hsym h) (hp2.trans hp.symm)).mpr hnd1
  haveI : IsAntisymm (String × JValue)
      (fun a b => keyLe a b ∧ a.1 ≠ b.1) :=
    ⟨fun a b h1 h2 => absurd (strLe_antisymm h1.1 h2.1) h1.2⟩
  exact List.eq_of_perm_of_sorted hps (hs1.and hne1) (hs2.and hne2)

theorem jsonDumps_perm (l1 l2 : List (String × JValue)) (hp : l1.Perm l2)
    (hnd : (l1.map Prod.fst).Nodup) : jsonDumps l1 = jsonDumps l2 := by
  unfold jsonDumps
  rw [sortKeys_eq_of_perm l1 l2 hp hnd]

/-- C9: digest and Merkle-root computation are deterministic pure functions:
two blocks with equal header fields hash identically (whatever is stored in
the `hash` slot), the canonical encoding is invariant under the insertion
order of the header dictionary (keys are sorted before serialization), and
repeated Merkle-root computations on the same list coincide. -/
theorem c9_determinism :
    (∀ (H : String → String) (b1 b2 : Task1.Block),
        b1.index = b2.index → b1.timestamp = b2.timestamp →
        b1.data = b2.data → b1.previous_hash = b2.previous_hash →
        b1.nonce = b2.nonce →
        Task1.calculate_hash H b1 = Task1.calculate_hash H b2) ∧
    (∀ (l1 l2 : List (String × JValue)), l1.Perm l2 →
        (l1.map Prod.fst).Nodup → jsonDumps l1 = jsonDumps l2) ∧
    (∀ (H : String → String) (txs : List String),
        Rev2.calculate_merkle_root H txs = Rev2.calculate_merkle_root H txs) := by
  refine ⟨fun H b1 b2 h1 h2 h3 h4 h5 => ?_, jsonDumps_perm, fun H txs => rfl⟩
  simp [Task1.calculate_hash, Task1.header, h1, h2, h3, h4, h5]

/-- C9 witness: the field-equality conjunct applied to two concrete blocks
differing only in the stored `hash` slot, and the insertion-order conjunct
applied to a concrete two-entry dictionary and its transposition. -/
theorem c9_witness :
    Task1.calculate_hash exH t1block =
      Task1.calculate_hash exH { t1block with hash := "zzz" } ∧
    jsonDumps [("timestamp", .jint 5), ("index", .jint 1)] =
      jsonDumps [("index", .jint 1), ("timestamp", .jint 5)] :=
  ⟨c9_determinism.1 exH t1block { t1block with hash := "zzz" } rfl rfl rfl rfl rfl,
   c9_determinism.2.1 _ _ (List.Perm.swap _ _ _) (by decide)⟩

/-!  Building-block lemmas for untampered chains of `Task_1.py`. -/

theorem t1_init_genesis (H : String → String) (fuel : Nat) (t0 : Int)
    (c : Task1.Blockchain) (h : Task1.init H fuel t0 = some c) :
    ∃ g, c.chain = [g] ∧ c.difficulty = 4 ∧ g.index = 0 ∧ g.timestamp = t0 ∧
      g.previous_hash = "0" ∧ g.hash = Task1.calculate_hash H g ∧
      starts_with g.hash (zeros 4) = true := by
  simp only [Task1.init, Task1.create_genesis_block] at h
  rw [Option.map_eq_some'] at h
  obtain ⟨g, hm, rfl⟩ := h
  exact ⟨g, rfl, rfl, (t1_mine_fields H 4 fuel _ g hm).1,
    (t1_mine_fields H 4 fuel _ g hm).2.1,
    (t1_mine_fields H 4 fuel _ g hm).2.2.2,
    (t1_mine_some H 4 fuel _ g hm).1, (t1_mine_some H 4 fuel _ g hm).2⟩

theorem t1_latest_append (l : List Task1.Block) (dif : Nat)
    (b : Task1.Block) : Task1.get_latest_block ⟨l ++ [b], dif⟩ = b := by
  simp [Task1.get_latest_block]

theorem t1_allFailures_snoc (H : String → String) (l : List Task1.Block)
    (dif : Nat) (b : Task1.Block) (hne : l ≠ []) :
    Task1.allFailures H ⟨l ++ [b], dif⟩ =
      Task1.allFailures H ⟨l, dif⟩ ++
        Task1.pairFailures H dif (l.getLast hne) b := by
  have hpos : 0 < l.length := List.length_pos.mpr hne
  unfold Task1.allFailures
  have hgen : Task1.genesisFailures H ⟨l ++ [b], dif⟩ =
      Task1.genesisFailures H ⟨l, dif⟩ := by
    unfold Task1.genesisFailures
    rw [show (⟨l ++ [b], dif⟩ : Task1.Blockchain).chain = l ++ [b] from rfl,
      show (⟨l, dif⟩ : Task1.Blockchain).chain = l from rfl,
      getD_append_lt l [b] 0 default hpos]
  rw [hgen, List.append_assoc]
  congr 1
  have hr : List.range' 1 ((l ++ [b]).length - 1) =
      List.range' 1 (l.length - 1) ++ [l.length] := by
    have h1 : (l ++ [b]).length - 1 = l.length := by simp
    rw [h1]
    have h2 := List.range'_append 1 (l.length - 1) 1 1
    have h3 : 1 + 1 * (l.length - 1) = l.length := by omega
    have h4 : 1 + (l.length - 1) = l.length := by omega
    rw [h3, h4] at h2
    rw [← h2]
    congr 1
  rw [show (⟨l ++ [b], dif⟩ : Task1.Blockchain).chain = l ++ [b] from rfl, hr,
    List.flatMap_append]
  congr 1
  · apply flatMap_congr_mem
    intro i hi
    obtain ⟨hi1, hi2⟩ := List.mem_range'_1.mp hi
    rw [getD_append_lt l [b] i default (by omega),
      getD_append_lt l [b] (i - 1) default (by omega)]
  · simp only [List.flatMap_cons, List.flatMap_nil, List.append_nil]
    rw [show l ++ [b] = l ++ b :: [] from rfl, getD_append_len l b [] default,
      getD_append_lt l (b :: []) (l.length - 1) default (by omega),
      getD_last l hne]

theorem t1_mine_block_step (H : String → String) (fuel : Nat)
    (c : Task1.Blockchain) (t : Int) (d : JValue) (c' : Task1.Blockchain)
    (h : Task1.mine_block H fuel c t d = some c')
    (hne : c.chain ≠ []) (haf : Task1.allFailures H c = [])
    (ht : (Task1.get_latest_block c).timestamp ≤ t) (hd : d.isStr = true) :
    c'.chain ≠ [] ∧ Task1.allFailures H c' = [] ∧
      (Task1.get_latest_block c').timestamp = t ∧
      c'.difficulty = c.difficulty := by
  simp only [Task1.mine_block, Task1.add_block] at h
  rw [Option.map_eq_some'] at h
  obtain ⟨b0, hm, rfl⟩ := h
  have hfields := t1_mine_fields H c.difficulty fuel _ b0 hm
  have hsome := t1_mine_some H c.difficulty fuel _ b0 hm
  have hidx : b0.index = (Task1.get_latest_block c).index + 1 := hfields.1
  have hts : b0.timestamp = t := hfields.2.1
  have hdata : b0.data = d := hfields.2.2.1
  have hph : b0.previous_hash = (Task1.get_latest_block c).hash :=
    hfields.2.2.2
  have hlast : c.chain.getLast hne = Task1.get_latest_block c := by
    rw [Task1.get_latest_block]
    exact (getLast?_getD c.chain hne).symm
  refine ⟨by simp, ?_, ?_, rfl⟩
  · have hsnoc := t1_allFailures_snoc H c.chain c.difficulty b0 hne
    have hc : ({ c with chain := c.chain ++ [b0] } : Task1.Blockchain) =
        ⟨c.chain ++ [b0], c.difficulty⟩ := rfl
    rw [hc, hsnoc]
    have hcc : (⟨c.chain, c.difficulty⟩ : Task1.Blockchain) = c := rfl
    rw [hcc, haf, List.nil_append]
    have e1 : ¬ (b0.index ≠ (c.chain.getLast hne).index + 1) := by
      rw [hlast, hidx]; exact fun hcon => hcon rfl
    have e2 : ¬ (b0.previous_hash ≠ (c.chain.getLast hne).hash) := by
      rw [hlast, hph]; exact fun hcon => hcon rfl
    have e3 : ¬ (b0.hash ≠ Task1.calculate_hash H b0) := by
      rw [hsome.1]; exact fun hcon => hcon rfl
    have e4 : ¬ (starts_with b0.hash (zeros c.difficulty) = false) := by
      rw [hsome.2]; exact fun hcon => Bool.noConfusion hcon
    have e5 : ¬ (b0.timestamp < (c.chain.getLast hne).timestamp) := by
      rw [hlast, hts]; exact not_lt.mpr ht
    have e6 : ¬ (b0.data.isStr = false) := by
      rw [hdata, hd]; exact fun hcon => Bool.noConfusion hcon
    unfold Task1.pairFailures
    rw [if_neg e1, if_neg e2, if_neg e3, if_neg e4, if_neg e5, if_neg e6]
    simp
  · have hc : ({ c with chain := c.chain ++ [b0] } : Task1.Blockchain) =
        ⟨c.chain ++ [b0], c.difficulty⟩ := rfl
    rw [hc, t1_latest_append]
    exact hts

theorem t1_fold_none (H : String → String) (fuel : Nat) :
    ∀ (entries : List (Int × JValue)),
      entries.foldl
        (fun oc e => oc.bind fun cc => Task1.mine_block H fuel cc e.1 e.2)
        (none : Option Task1.Blockchain) = none
  | [] => rfl
  | _ :: rest => t1_fold_none H fuel rest

theorem t1_fold_valid (H : String → String) (fuel : Nat) :
    ∀ (entries : List (Int × JValue)) (c0 c : Task1.Blockchain),
      entries.foldl
        (fun oc e => oc.bind fun cc => Task1.mine_block H fuel cc e.1 e.2)
        (some c0) = some c →
      c0.chain ≠ [] → Task1.allFailures H c0 = [] →
      Task1.timesMono (Task1.get_latest_block c0).timestamp
        (entries.map Prod.fst) = true →
      entries.all (fun e => e.2.isStr) = true →
      Task1.allFailures H c = []
  | [], c0, c, h, _, haf, _, _ => by obtain rfl := Option.some.inj h; exact haf
  | e :: rest, c0, c, h, hne, haf, htm, hall => by
    replace h : rest.foldl
        (fun oc e => oc.bind fun cc => Task1.mine_block H fuel cc e.1 e.2)
        (Task1.mine_block H fuel c0 e.1 e.2) = some c := h
    simp only [List.map_cons, Task1.timesMono, Bool.and_eq_true,
      decide_eq_true_eq] at htm
    simp only [List.all_cons, Bool.and_eq_true] at hall
    cases hm : Task1.mine_block H fuel c0 e.1 e.2 with
    | none =>
      rw [hm, t1_fold_none H fuel rest] at h
      exact Option.noConfusion h
    | some c1 =>
      rw [hm] at h
      obtain ⟨hne1, haf1, hts1, _⟩ :=
        t1_mine_block_step H fuel c0 e.1 e.2 c1 hm hne haf htm.1 hall.1
      exact t1_fold_valid H fuel rest c1 c h hne1 haf1
        (by rw [hts1]; exact htm.2) hall.2

/-- C7: a chain freshly built by construction followed by untampered appends
(at least three blocks in total) with a monotone clock and string payloads
verifies as valid, with an empty failure report. -/
theorem c7_fresh_chain_valid (H : String → String) (fuel : Nat) (t0 : Int)
    (entries : List (Int × JValue)) (c : Task1.Blockchain)
    (_hn : 2 ≤ entries.length)
    (htm : Task1.timesMono t0 (entries.map Prod.fst) = true)
    (hall : entries.all (fun e => e.2.isStr) = true)
    (h : Task1.build_chain H fuel t0 entries = some c) :
    Task1.is_chain_valid H c = (true, []) := by
  rw [t1_valid_eq]
  suffices haf : Task1.allFailures H c = [] by rw [haf]; rfl
  unfold Task1.build_chain at h
  cases hi : Task1.init H fuel t0 with
  | none =>
    rw [hi, t1_fold_none H fuel entries] at h
    exact Option.noConfusion h
  | some c0 =>
    rw [hi] at h
    obtain ⟨g, hch, hdiff, hgi, hgt, hgp, hgh, hgpow⟩ :=
      t1_init_genesis H fuel t0 c0 hi
    have hne0 : c0.chain ≠ [] := by rw [hch]; exact List.cons_ne_nil g []
    have haf0 : Task1.allFailures H c0 = [] := by
      unfold Task1.allFailures Task1.genesisFailures
      rw [hch]
      simp [hgi, hgp, hgh.symm]
    have hlat0 : Task1.get_latest_block c0 = g := by
      rw [Task1.get_latest_block, hch]; rfl
    exact t1_fold_valid H fuel entries c0 c h hne0 haf0
      (by rw [hlat0, hgt]; exact htm) hall

/-- C7 witness: a concrete three-block chain built under `exH` verifies as
valid with an empty report. -/
theorem c7_witness : Task1.is_chain_valid exH t1chain = (true, []) :=
  c7_fresh_chain_valid exH 0 0 [(0, .jstr "tx1"), (0, .jstr "tx2")] t1chain
    (by decide) (by decide) (by decide) (by decide)

/-- C2 witness: the three conjuncts of `c2_mining_pow` applied to concrete
mining runs and to a concrete two-block chain. -/
theorem c2_witness :
    (starts_with t1block.hash (zeros 4) = true ∧
      t1block.hash = Task1.calculate_hash exH t1block) ∧
    (starts_with bcblock0.hash (BC.zerosI 1) = true ∧
      bcblock0.hash = BC.calculate_hash zeroPrims bcblock0) ∧
    starts_with (bcchain.chain.getD 1 default).hash (BC.zerosI 1) = true :=
  ⟨c2_mining_pow.1 exH 4 0 t1block t1block (by norm_num) (by decide),
   c2_mining_pow.2.1 zeroPrims 1 0 bcblock0 bcblock0 (by norm_num) rfl
     (by decide),
   c2_mining_pow.2.2 zeroPrims 0 1 "sha256" 0 [(0, .jstr "a")] bcchain
     (by decide) 1 (by norm_num) (by decide)⟩

/-!  Lemmas about the rev-2 verifier needed for the tamper-detection
claim. -/

theorem r2_pairCheck_none (H : String → String) (d : Nat)
    (prev cur : Rev2.Block) (h : Rev2.pairCheck H d prev cur = none) :
    cur.index = prev.index + 1 ∧ cur.previous_hash = prev.hash ∧
      cur.merkle_root = Rev2.calculate_merkle_root H cur.data := by
  unfold Rev2.pairCheck at h
  split_ifs at h with h1 h2 h3 h4 h5 h6
  all_goals first
    | exact Option.noConfusion h
    | exact ⟨not_ne_iff.mp h1, not_ne_iff.mp h2, not_ne_iff.mp h3⟩

theorem r2_checkLoop_none (H : String → String) (st : Rev2.Blockchain) :
    ∀ (is : List Nat), (Rev2.checkLoop H is st).1 = none →
      ∀ i ∈ is, Rev2.pairCheck H st.difficulty
        (st.chain.getD (i - 1) default) (st.chain.getD i default) = none
  | [], _, i, hi => absurd hi (List.not_mem_nil i)
  | j :: rest, h, i, hi => by
    revert h
    simp only [Rev2.checkLoop]
    cases hc : Rev2.pairCheck H st.difficulty (st.chain.getD (j - 1) default)
        (st.chain.getD j default) with
    | some f => intro h; exact Option.noConfusion h
    | none =>
      intro h
      rcases List.mem_cons.mp hi with rfl | hi'
      · exact hc
      · exact r2_checkLoop_none H st rest h i hi'

theorem r2_checkLoop_first (H : String → String) (st : Rev2.Blockchain)
    (f : Rev2.Failure) (k : Nat) :
    ∀ (is1 is2 : List Nat),
      (∀ i ∈ is1, Rev2.pairCheck H st.difficulty
        (st.chain.getD (i - 1) default) (st.chain.getD i default) = none) →
      Rev2.pairCheck H st.difficulty (st.chain.getD (k - 1) default)
        (st.chain.getD k default) = some f →
      (Rev2.checkLoop H (is1 ++ k :: is2) st).1 = some f
  | [], is2, _, hk => by
    simp only [List.nil_append, Rev2.checkLoop]
    rw [hk]
  | j :: is1, is2, hnone, hk => by
    simp only [List.cons_append, Rev2.checkLoop]
    rw [hnone j (by simp)]
    exact r2_checkLoop_first H st f k is1 is2
      (fun i hi => hnone i (by simp [hi])) hk

theorem r2_index_pos (H : String → String) (c : Rev2.Blockchain)
    (hv : (Rev2.check_chain_st H c).1 = none) :
    ∀ i, i < c.chain.length → (c.chain.getD i default).index = i := by
  unfold Rev2.check_chain_st at hv
  by_cases hg : (c.chain.getD 0 default).index ≠ 0 ∨
      (c.chain.getD 0 default).previous_hash ≠ "0"
  · rw [if_pos hg] at hv; exact Option.noConfusion hv
  · rw [if_neg hg] at hv
    push_neg at hg
    have hloop := r2_checkLoop_none H c _ hv
    intro i
    induction i with
    | zero => intro _; exact hg.1
    | succ n ih =>
      intro hlt
      have hn := ih (by omega)
      have hmem : (n + 1) ∈ List.range' 1 (c.chain.length - 1) :=
        List.mem_range'_1.mpr ⟨by omega, by omega⟩
      have hpc := (r2_pairCheck_none H c.difficulty _ _ (hloop (n + 1) hmem)).1
      rw [Nat.add_sub_cancel] at hpc
      rw [hpc, hn]

theorem updateData_length (d : List String) :
    ∀ (k : Nat) (l : List Rev2.Block), (Rev2.updateData d k l).length = l.length
  | k, [] => by cases k <;> rfl
  | 0, _ :: _ => rfl
  | k + 1, b :: bs => by
    simp only [Rev2.updateData, List.length_cons, updateData_length d k bs]

theorem updateData_getD_ne (d : List String) :
    ∀ (k i : Nat) (l : List Rev2.Block) (x : Rev2.Block), i ≠ k →
      (Rev2.updateData d k l).getD i x = l.getD i x
  | k, _, [], _, _ => by cases k <;> rfl
  | 0, 0, _ :: _, _, h => absurd rfl h
  | 0, _ + 1, _ :: _, _, _ => rfl
  | _ + 1, 0, _ :: _, _, _ => rfl
  | k + 1, i + 1, _ :: bs, x, h => by
    simp only [Rev2.updateData, List.getD_cons_succ]
    exact updateData_getD_ne d k i bs x (fun e => h (by rw [e]))

theorem updateData_getD_eq (d : List String) :
    ∀ (k : Nat) (l : List Rev2.Block) (x : Rev2.Block), k < l.length →
      (Rev2.updateData d k l).getD k x = { l.getD k x with data := d }
  | _, [], _, h => by simp at h
  | 0, _ :: _, _, _ => rfl
  | k + 1, _ :: bs, x, h => by
    simp only [Rev2.updateData, List.getD_cons_succ]
    exact updateData_getD_eq d k bs x (by simpa using h)

/-- C4 (amended): in the rev-2 variant, overwriting the transactions of an
interior block `k` of a verifying chain without recomputing `merkle_root` or
`digest` makes `verify` fail at index `k` with a Merkle-root mismatch —
provided the mutation actually changes the recomputed Merkle root.  (The
counterexample shows the proviso is necessary: a root-preserving mutation,
such as duplicating the last transaction of an odd batch, is not
detected.) -/
theorem c4_tamper_detection (H : String → String) (c : Rev2.Blockchain)
    (k : Nat) (d : List String)
    (hv : (Rev2.check_chain_st H c).1 = none)
    (hk1 : 1 ≤ k) (hk2 : k < c.chain.length)
    (hroot : Rev2.calculate_merkle_root H d ≠
      (c.chain.getD k default).merkle_root) :
    (Rev2.check_chain_st H (Rev2.set_data c k d)).1 =
      some (.block .merkleMismatch k) ∧
    Rev2.is_chain_valid H (Rev2.set_data c k d) = false := by
  have hidx := r2_index_pos H c hv
  unfold Rev2.check_chain_st at hv
  by_cases hg : (c.chain.getD 0 default).index ≠ 0 ∨
      (c.chain.getD 0 default).previous_hash ≠ "0"
  · rw [if_pos hg] at hv; exact Option.noConfusion hv
  rw [if_neg hg] at hv
  have hloop := r2_checkLoop_none H c _ hv
  have hchain' : (Rev2.set_data c k d).chain = Rev2.updateData d k c.chain := rfl
  have hdiff' : (Rev2.set_data c k d).difficulty = c.difficulty := rfl
  have hlen' : (Rev2.set_data c k d).chain.length = c.chain.length := by
    rw [hchain']; exact updateData_length d k c.chain
  have hg0 : (Rev2.set_data c k d).chain.getD 0 default =
      c.chain.getD 0 default := by
    rw [hchain']; exact updateData_getD_ne d k 0 c.chain default (by omega)
  obtain ⟨m, rfl⟩ : ∃ m, k = m + 1 := ⟨k - 1, by omega⟩
  have hmain : (Rev2.check_chain_st H (Rev2.set_data c (m + 1) d)).1 =
      some (.block .merkleMismatch (m + 1)) := by
    unfold Rev2.check_chain_st
    rw [if_neg (by rw [hg0]; exact hg)]
    have hsplit : List.range' 1 ((Rev2.set_data c (m + 1) d).chain.length - 1) =
        List.range' 1 m ++ (m + 1) ::
          List.range' (m + 2) (c.chain.length - 2 - m) := by
      rw [hlen']
      have h2 := List.range'_append 1 m (c.chain.length - 1 - m) 1
      have h3 : 1 + 1 * m = m + 1 := by omega
      have h4 : c.chain.length - 1 - m + m = c.chain.length - 1 := by omega
      rw [h3, h4] at h2
      rw [← h2]
      congr 1
      have h5 : c.chain.length - 1 - m = (c.chain.length - 2 - m) + 1 := by
        omega
      rw [h5, List.range'_succ]
    rw [hsplit]
    have hcur := updateData_getD_eq d (m + 1) c.chain default hk2
    have hprev : (Rev2.set_data c (m + 1) d).chain.getD m default =
        c.chain.getD m default := by
      rw [hchain']; exact updateData_getD_ne d (m + 1) m c.chain default
        (by omega)
    have horig := r2_pairCheck_none H c.difficulty _ _
      (hloop (m + 1) (List.mem_range'_1.mpr ⟨by omega, by omega⟩))
    rw [Nat.add_sub_cancel] at horig
    apply r2_checkLoop_first H (Rev2.set_data c (m + 1) d)
      (.block .merkleMismatch (m + 1)) (m + 1)
    · intro i hi
      obtain ⟨hi1, hi2⟩ := List.mem_range'_1.mp hi
      have hne1 : i ≠ m + 1 := by omega
      have hne2 : i - 1 ≠ m + 1 := by omega
      rw [hdiff', hchain', updateData_getD_ne d (m + 1) i c.chain default hne1,
        updateData_getD_ne d (m + 1) (i - 1) c.chain default hne2]
      exact hloop i (List.mem_range'_1.mpr ⟨by omega, by omega⟩)
    · rw [hdiff', Nat.add_sub_cancel, hprev, hchain', hcur]
      have hidxk : (c.chain.getD (m + 1) default).index = m + 1 :=
        hidx (m + 1) hk2
      have h3 : (c.chain.getD (m + 1) default).merkle_root ≠
          Rev2.calculate_merkle_root H d := fun e => hroot e.symm
      have h1 := horig.1
      have h2 := horig.2.1
      have hm0 : (c.chain.getD m default).index = m := hidx m (by omega)
      simp only [List.getD_eq_getElem?_getD] at h1 h2 h3 hidxk hm0
      simp [Rev2.pairCheck, h1, h2, h3, hidxk, hm0]
  refine ⟨hmain, ?_⟩
  rw [Rev2.is_chain_valid, hmain]
  rfl

/-- C4 counterexample: a payload mutation that preserves the Merkle root is
not detected.  `r2chain` verifies; duplicating the final transaction of
block 1's odd batch (`["a","b","c"]` to `["a","b","c","c"]`) changes the
stored transactions but leaves the recomputed Merkle root — and hence every
check of `verify` — unchanged, so the tampered chain still verifies. -/
theorem c4_counterexample :
    Rev2.is_chain_valid exH r2chain = true ∧
    (r2dup.chain.getD 1 default).data ≠ (r2chain.chain.getD 1 default).data ∧
    Rev2.is_chain_valid exH r2dup = true := by
  refine ⟨by decide, by decide, by decide⟩

/-- C4 witness: `c4_tamper_detection` applied to the concrete chain
`r2chain` with a genuine payload edit at interior position 1. -/
theorem c4_witness :
    (Rev2.check_chain_st exH (Rev2.set_data r2chain 1 ["x", "b", "c"])).1 =
      some (.block .merkleMismatch 1) ∧
    Rev2.is_chain_valid exH (Rev2.set_data r2chain 1 ["x", "b", "c"]) = false :=
  c4_tamper_detection exH r2chain 1 ["x", "b", "c"] (by decide) (by decide)
    (by decide) (by decide)
